import Mathlib

/-!
Shallow embedding of the recurring-task scheduling and completion-state core of
the household task tracker (source: `src/types/index.ts`, `src/utils/date.ts`,
the task-helper module, and `src/db/index.ts`).

Conventions of the embedding:
* A JavaScript `Date` is its epoch value: milliseconds since 1970-01-01T00:00Z,
  as an `Int`.
* The host machine's local time zone is a fixed offset `tz` (milliseconds east
  of UTC) threaded through every date-fns function that reads local calendar
  fields (`startOfDay`, `addMonths`, `toZonedTime`).  `Asia/Hong_Kong` is the
  fixed offset UTC+8 (it has had no DST since 1979, and the code treats it as a
  plain zone name).
* Asynchronous store calls are modelled by explicit state passing on a `Store`
  value holding the `tasks` and `completionLogs` object stores; `put` is
  insert-or-replace by primary id, `delete` removes by primary id, and the
  `by-task` index read is a filter on `taskId`.
* The random id `log-${Date.now()}-...` generated for a new completion log is
  passed in as an explicit `newId` parameter.
-/

namespace HomeHelper

/-! ### Data model (`src/types/index.ts`) -/

/-- `type TaskFrequency = 'weekly' | 'monthly'` -/
inductive TaskFrequency where
  | weekly
  | monthly
  deriving DecidableEq, Repr

/-- `type TaskPriority = 'High' | 'Medium' | 'Low'` -/
inductive TaskPriority where
  | High
  | Medium
  | Low
  deriving DecidableEq, Repr

/-- `type TaskStatus = 'Overdue' | 'DueToday' | 'Upcoming' | 'OK'` -/
inductive TaskStatus where
  | Overdue
  | DueToday
  | Upcoming
  | OK
  deriving DecidableEq, Repr

/-- The `Task` interface.  Timestamps are epoch milliseconds.  `createdAt` is
kept optional here: the TypeScript interface declares it required, but
`calculateNextDueDate` explicitly guards `if (!baseline) return undefined`, so
the model keeps that code path reachable. -/
structure Task where
  id : String
  title : String
  description : Option String
  frequency : TaskFrequency
  priority : TaskPriority
  isActive : Bool
  assignedToAllHelpers : Bool
  assignees : List String
  startDate : Option Int
  lastCompletedAt : Option Int
  createdAt : Option Int
  updatedAt : Int
  nextDueAt : Option Int
  status : Option TaskStatus
  lastThreeCompletions : Option (List Int)
  deriving DecidableEq, Repr

/-- The `CompletionLog` interface. -/
structure CompletionLog where
  id : String
  taskId : String
  completedAt : Int
  completedBy : String
  completedByName : Option String
  note : Option String
  photos : List String
  undoUntil : Int
  createdAt : Int
  deriving DecidableEq, Repr

/-! ### Date utilities (`src/utils/date.ts` and the date-fns collaborators) -/

/-- Milliseconds in one day. -/
def dayMs : Int := 86400000

/-- The fixed offset of `Asia/Hong_Kong` (UTC+8) in milliseconds. -/
def hkOffsetMs : Int := 28800000

/-- Index of the local calendar day (days since 1970-01-01 in the zone with
offset `tz`).  `Int` division by a positive literal is floor division. -/
def dayIndex (tz t : Int) : Int := (t + tz) / dayMs

/-- date-fns `startOfDay`: midnight of the local calendar day of `t`, in the
host zone with offset `tz`. -/
def startOfDay (tz t : Int) : Int := dayIndex tz t * dayMs - tz

/-- date-fns `addDays` (no DST in a fixed-offset zone). -/
def addDays (n t : Int) : Int := t + n * dayMs

/-- date-fns-tz `toZonedTime(t, 'Asia/Hong_Kong')`: a `Date` whose host-local
calendar fields show the Hong Kong wall-clock time of instant `t`. -/
def toZonedTime (tz t : Int) : Int := t + (hkOffsetMs - tz)

/-- `getHKTime()`: `toZonedTime(new Date(), TIMEZONE)` applied to the current
UTC instant `utcNow`. -/
def getHKTime (tz utcNow : Int) : Int := toZonedTime tz utcNow

/-- date-fns `differenceInDays` for the use in `calculateTaskStatus`, where
both arguments are `startOfDay` values (midnight-aligned in the same zone), so
the whole-day difference is an exact quotient. -/
def differenceInDays (a b : Int) : Int := (a - b) / dayMs

/-- Gregorian leap-year rule used by the JavaScript `Date` calendar. -/
def isLeapYear (y : Int) : Bool := y % 4 == 0 && (y % 100 != 0 || y % 400 == 0)

/-- Number of days in month `m` (1-12) of year `y`. -/
def daysInMonth (y m : Int) : Int :=
  if m = 2 then (if isLeapYear y then 29 else 28)
  else if m = 4 ∨ m = 6 ∨ m = 9 ∨ m = 11 then 30
  else 31

/-- Civil date `(year, month 1-12, day 1-31)` from a day index (days since
1970-01-01), proleptic Gregorian calendar (floor-division form of the standard
`civil_from_days` algorithm). -/
def civilFromDays (z0 : Int) : Int × Int × Int :=
  let z := z0 + 719468
  let era := z / 146097
  let doe := z - era * 146097
  let yoe := (doe - doe / 1460 + doe / 36524 - doe / 146096) / 365
  let y := yoe + era * 400
  let doy := doe - (365 * yoe + yoe / 4 - yoe / 100)
  let mp := (5 * doy + 2) / 153
  let d := doy - (153 * mp + 2) / 5 + 1
  let m := mp + (if mp < 10 then 3 else -9)
  (y + (if m ≤ 2 then 1 else 0), m, d)

/-- Day index (days since 1970-01-01) of the civil date `(y, m, d)`
(`days_from_civil`). -/
def daysFromCivil (y m d : Int) : Int :=
  let y1 := y - (if m ≤ 2 then 1 else 0)
  let era := y1 / 400
  let yoe := y1 - era * 400
  let mp := if m > 2 then m - 3 else m + 9
  let doy := (153 * mp + 2) / 5 + d - 1
  let doe := yoe * 365 + yoe / 4 - yoe / 100 + doy
  era * 146097 + doe - 719468

/-- The `(year, month)` one calendar month after `(y, m)`. -/
def nextMonthYear (y m : Int) : Int × Int := if m = 12 then (y + 1, 1) else (y, m + 1)

/-- date-fns `addMonths` day-of-month overflow handling: when the original
day-of-month is at least the length of the target month, the result is the
last day of the target month, otherwise the same day-of-month. -/
def clampDay (d dim : Int) : Int := if d ≥ dim then dim else d

/-- One calendar month after the civil date `(y, m, d)`, as a day index. -/
def addMonthsCivil (y m d : Int) : Int :=
  daysFromCivil (nextMonthYear y m).1 (nextMonthYear y m).2
    (clampDay d (daysInMonth (nextMonthYear y m).1 (nextMonthYear y m).2))

/-- One calendar month after the day with index `k`. -/
def addMonthsDay (k : Int) : Int :=
  addMonthsCivil (civilFromDays k).1 (civilFromDays k).2.1 (civilFromDays k).2.2

/-- date-fns `addMonths(t, 1)` in the host zone with offset `tz`: advance the
local calendar date by one month (clamping the day-of-month) and keep the
time-of-day. -/
def addMonths (tz t : Int) : Int :=
  addMonthsDay ((t + tz) / dayMs) * dayMs + (t + tz) % dayMs - tz

/-- The baseline chosen by `calculateNextDueDate`:
`task.lastCompletedAt || task.startDate || task.createdAt` (a JS `Date` object
is always truthy, so this is first-present precedence). -/
def baselineOf (task : Task) : Option Int :=
  match task.lastCompletedAt with
  | some b => some b
  | none =>
    match task.startDate with
    | some b => some b
    | none => task.createdAt

/-- `calculateNextDueDate` (`src/utils/date.ts`).  The trailing
`return undefined` of the source is unreachable because `frequency` is the
closed union `'weekly' | 'monthly'`. -/
def calculateNextDueDate (tz : Int) (task : Task) : Option Int :=
  match baselineOf task with
  | none => none
  | some baseline =>
    match task.frequency with
    | TaskFrequency.weekly => some (addDays 7 (startOfDay tz baseline))
    | TaskFrequency.monthly => some (addMonths tz (startOfDay tz baseline))

/-- `calculateTaskStatus` (`src/utils/date.ts`).  `isAfter(today, nextDueDay)`
is the timestamp comparison `nextDueDay < today`, and
`isSameDay(today, nextDueDay)` on two `startOfDay` values is equality. -/
def calculateTaskStatus (tz utcNow : Int) (task : Task) : TaskStatus :=
  match calculateNextDueDate tz task with
  | none => TaskStatus.OK
  | some nextDue =>
    if startOfDay tz nextDue < startOfDay tz (getHKTime tz utcNow) then TaskStatus.Overdue
    else if startOfDay tz (getHKTime tz utcNow) = startOfDay tz nextDue then TaskStatus.DueToday
    else if task.frequency = TaskFrequency.weekly ∧
        differenceInDays (startOfDay tz nextDue) (startOfDay tz (getHKTime tz utcNow)) ≤ 3 then
      TaskStatus.Upcoming
    else if task.frequency = TaskFrequency.monthly ∧
        differenceInDays (startOfDay tz nextDue) (startOfDay tz (getHKTime tz utcNow)) ≤ 5 then
      TaskStatus.Upcoming
    else TaskStatus.OK

/-! ### Store (`src/db/index.ts`) -/

/-- The two object stores the core touches. -/
structure Store where
  tasks : List Task
  completionLogs : List CompletionLog
  deriving DecidableEq, Repr

/-- IndexedDB `put` on the `tasks` store: replace the record with the same
primary id, or insert. -/
def putTask (tasks : List Task) (t : Task) : List Task :=
  if tasks.any (fun x => x.id == t.id) then
    tasks.map (fun x => if x.id == t.id then t else x)
  else tasks ++ [t]

/-- IndexedDB `put` on the `completionLogs` store. -/
def putLog (logs : List CompletionLog) (l : CompletionLog) : List CompletionLog :=
  if logs.any (fun x => x.id == l.id) then
    logs.map (fun x => if x.id == l.id then l else x)
  else logs ++ [l]

/-- `getCompletionLogsByTask`: the `by-task` secondary index. -/
def logsForTask (logs : List CompletionLog) (taskId : String) : List CompletionLog :=
  logs.filter (fun l => l.taskId == taskId)

/-- `database.delete('tasks', id)` inside `deleteTask`. -/
def dbDeleteTask (s : Store) (id : String) : Store :=
  { s with tasks := s.tasks.filter (fun t => t.id != id) }

/-- `deleteCompletionLog(id)`. -/
def dbDeleteCompletionLog (s : Store) (id : String) : Store :=
  { s with completionLogs := s.completionLogs.filter (fun l => l.id != id) }

/-- `deleteTask` (`src/db/index.ts`): delete the task record, then fetch the
task's completion logs and delete them one by one. -/
def deleteTask (s : Store) (id : String) : Store :=
  let s1 := dbDeleteTask s id
  (logsForTask s1.completionLogs id).foldl (fun st l => dbDeleteCompletionLog st l.id) s1

/-! ### Completion ledger and enrichment (task-helper module) -/

/-- Maximum of a list of timestamps, `none` on the empty list.  This is the
value of `logs.sort((a, b) => b.completedAt - a.completedAt)[0].completedAt`
guarded by `logs.length > 0`. -/
def maxTime : List Int → Option Int
  | [] => none
  | t :: ts =>
    match maxTime ts with
    | none => some t
    | some m => some (max t m)

/-- `lastCompletedAt` recomputed from a set of logs. -/
def lastCompletionOf (logs : List CompletionLog) : Option Int :=
  maxTime (logs.map (fun l => l.completedAt))

/-- Descending order on timestamps, for `lastThree`. -/
def descInt (a b : Int) : Prop := b ≤ a

instance : DecidableRel descInt := fun a b => Int.decLe b a

instance : IsTotal Int descInt := ⟨fun a b => Int.le_total b a⟩

instance : IsTrans Int descInt := ⟨fun _ _ _ h1 h2 => Int.le_trans h2 h1⟩

/-- `getLastThreeCompletionDates`: the task's log timestamps, descending by
`completedAt`, truncated to 3 entries (a stable sort models JS
`Array.prototype.sort`). -/
def lastThreeFor (logs : List CompletionLog) (taskId : String) : List Int :=
  (List.insertionSort descInt ((logsForTask logs taskId).map (fun l => l.completedAt))).take 3

/-- `enrichTask`: recompute the three derived fields on the task record. -/
def enrichTask (tz utcNow : Int) (logs : List CompletionLog) (task : Task) : Task :=
  let e1 := { task with nextDueAt := calculateNextDueDate tz task }
  let e2 := { e1 with status := some (calculateTaskStatus tz utcNow e1) }
  { e2 with lastThreeCompletions := some (lastThreeFor logs e2.id) }

/-- The completion log created by `markTaskComplete`: `completedAt = now`,
`undoUntil = now + 5 minutes`, with `now = getHKTime()`. -/
def newCompletionLog (tz utcNow : Int) (task : Task) (completedBy completedByName : String)
    (note : Option String) (photos : List String) (newId : String) : CompletionLog :=
  { id := newId
    taskId := task.id
    completedAt := getHKTime tz utcNow
    completedBy := completedBy
    completedByName := some completedByName
    note := note
    photos := photos
    undoUntil := getHKTime tz utcNow + 300000
    createdAt := getHKTime tz utcNow }

/-- `markTaskComplete`: insert the new log, set `lastCompletedAt = now`,
re-enrich, persist the task (`updateTask` also stamps `updatedAt = new Date()`,
the raw UTC instant), and return the enriched task and the log. -/
def markTaskComplete (tz utcNow : Int) (s : Store) (task : Task)
    (completedBy completedByName : String) (note : Option String) (photos : List String)
    (newId : String) : Store × Task × CompletionLog :=
  let log := newCompletionLog tz utcNow task completedBy completedByName note photos newId
  let logs1 := putLog s.completionLogs log
  let enriched := enrichTask tz utcNow logs1 { task with lastCompletedAt := some (getHKTime tz utcNow) }
  let persisted := { enriched with updatedAt := utcNow }
  ({ tasks := putTask s.tasks persisted, completionLogs := logs1 }, persisted, log)

/-- `undoTaskCompletion`: delete the specified log, recompute
`lastCompletedAt` from the task's remaining logs (absent if none remain),
re-enrich, persist.  There is no check against `undoUntil`. -/
def undoTaskCompletion (tz utcNow : Int) (s : Store) (task : Task) (logId : String) :
    Store × Task :=
  let logs1 := s.completionLogs.filter (fun l => l.id != logId)
  let updatedTask := { task with lastCompletedAt := lastCompletionOf (logsForTask logs1 task.id) }
  let enriched := enrichTask tz utcNow logs1 updatedTask
  let persisted := { enriched with updatedAt := utcNow }
  ({ tasks := putTask s.tasks persisted, completionLogs := logs1 }, persisted)

/-! ### Query, sort and group engine (task-helper module) -/

/-- `filterTasksByAssignee`: an Owner sees everything, a Helper sees tasks
assigned to all helpers or listing their id. -/
def filterTasksByAssignee (tasks : List Task) (userId : String) (isOwner : Bool) : List Task :=
  if isOwner then tasks
  else tasks.filter (fun t => t.assignedToAllHelpers || t.assignees.contains userId)

/-- The `statusOrder` record of `sortTasksByStatus`. -/
def statusOrder : TaskStatus → Nat
  | TaskStatus.Overdue => 0
  | TaskStatus.DueToday => 1
  | TaskStatus.Upcoming => 2
  | TaskStatus.OK => 3

/-- The `a.status || 'OK'` default applied by `sortTasksByStatus`. -/
def statusOrDefault (task : Task) : TaskStatus := task.status.getD TaskStatus.OK

/-- The comparator key of `sortTasksByStatus`. -/
def sortStatusKey (task : Task) : Nat := statusOrder (statusOrDefault task)

/-- The preorder decided by the comparator
`statusOrder[statusA] - statusOrder[statusB]`. -/
def statusLE (a b : Task) : Prop := sortStatusKey a ≤ sortStatusKey b

instance : DecidableRel statusLE := fun a b => Nat.decLe (sortStatusKey a) (sortStatusKey b)

instance : IsTotal Task statusLE := ⟨fun a b => Nat.le_total (sortStatusKey a) (sortStatusKey b)⟩

instance : IsTrans Task statusLE := ⟨fun _ _ _ h1 h2 => Nat.le_trans h1 h2⟩

/-- `sortTasksByStatus`: `[...tasks].sort(comparator)`.  ECMAScript
`Array.prototype.sort` is a stable sort, and a stable sort for a total
preorder produces a unique output, so insertion sort is a faithful model. -/
def sortTasksByStatus (tasks : List Task) : List Task :=
  List.insertionSort statusLE tasks

/-- The four buckets returned by `groupTasksByStatus`. -/
structure StatusGroups where
  Overdue : List Task
  DueToday : List Task
  Upcoming : List Task
  OK : List Task
  deriving DecidableEq, Repr

/-- `groupTasksByStatus`: four filters on the literal `status` value (no
`|| 'OK'` default here). -/
def groupTasksByStatus (tasks : List Task) : StatusGroups :=
  { Overdue := tasks.filter (fun t => t.status == some TaskStatus.Overdue)
    DueToday := tasks.filter (fun t => t.status == some TaskStatus.DueToday)
    Upcoming := tasks.filter (fun t => t.status == some TaskStatus.Upcoming)
    OK := tasks.filter (fun t => t.status == some TaskStatus.OK) }

/-! ### Claim-side (specification-phrased) definitions -/

/-- The status classifier as the specification words it (§4.2): day-level
comparisons on the calendar-day indices of `now` and of the next due date,
with `daysUntilDue = dueDay - today` in whole days. -/
def claimStatus (tz : Int) (nd : Option Int) (now : Int) (freq : TaskFrequency) : TaskStatus :=
  match nd with
  | none => TaskStatus.OK
  | some due =>
    if dayIndex tz due < dayIndex tz now then TaskStatus.Overdue
    else if dayIndex tz now = dayIndex tz due then TaskStatus.DueToday
    else if freq = TaskFrequency.weekly ∧ dayIndex tz due - dayIndex tz now ≤ 3 then
      TaskStatus.Upcoming
    else if freq = TaskFrequency.monthly ∧ dayIndex tz due - dayIndex tz now ≤ 5 then
      TaskStatus.Upcoming
    else TaskStatus.OK

/-- One calendar month after the day with index `k`, phrased as the
specification words it: the same day-of-month, clamped with `min` to the last
valid day when the target month is shorter. -/
def specMonthlyDay (k : Int) : Int :=
  daysFromCivil (nextMonthYear (civilFromDays k).1 (civilFromDays k).2.1).1
    (nextMonthYear (civilFromDays k).1 (civilFromDays k).2.1).2
    (min (civilFromDays k).2.2
      (daysInMonth (nextMonthYear (civilFromDays k).1 (civilFromDays k).2.1).1
        (nextMonthYear (civilFromDays k).1 (civilFromDays k).2.1).2))

/-- The due-date computation as claim C2 words it: baseline precedence
`lastCompletedAt`, else `startDate`, else `createdAt` (absent when none
exist); weekly is the day-truncated baseline plus 7 days; monthly is one
calendar month later with the clamped day-of-month, at day start. -/
def claimNextDue (tz : Int) (task : Task) : Option Int :=
  match baselineOf task with
  | none => none
  | some baseline =>
    match task.frequency with
    | TaskFrequency.weekly => some ((dayIndex tz baseline + 7) * dayMs - tz)
    | TaskFrequency.monthly => some (specMonthlyDay (dayIndex tz baseline) * dayMs - tz)

/-- Start of the Hong Kong calendar day of instant `t`, independent of the
host zone offset.  Claim C5 asserts the baseline is truncated this way. -/
def hkStartOfDay (t : Int) : Int := (t + hkOffsetMs) / dayMs * dayMs - hkOffsetMs

/-- The due-date computation as claim C5 words it: the baseline is truncated
to midnight of its calendar day in the normalized `Asia/Hong_Kong` zone, and
the calendar arithmetic is done in that zone. -/
def claimNextDueHK (task : Task) : Option Int :=
  match baselineOf task with
  | none => none
  | some baseline =>
    match task.frequency with
    | TaskFrequency.weekly => some (addDays 7 (hkStartOfDay baseline))
    | TaskFrequency.monthly => some (addMonths hkOffsetMs (hkStartOfDay baseline))

/-- The composite sort key claim C4 asserts for `sortTasksByStatus`: status
severity rank as the major key and priority rank (High 0, Medium 1, Low 2) as
the minor key.  Since the priority rank is below 4, this linearizes the
claimed lexicographic order. -/
def priorityOrder : TaskPriority → Nat
  | TaskPriority.High => 0
  | TaskPriority.Medium => 1
  | TaskPriority.Low => 2

/-- Linearization of the (status rank, priority rank) lexicographic key of
claim C4. -/
def claimSortKey (t : Task) : Nat := sortStatusKey t * 4 + priorityOrder t.priority

/-- The cache-consistency predicate of claims C3/C6: the task's
`lastCompletedAt` equals the maximum `completedAt` among the task's stored
logs, or is absent when there are none. -/
def ConsistentCache (s : Store) (t : Task) : Prop :=
  t.lastCompletedAt = lastCompletionOf (logsForTask s.completionLogs t.id)

instance (s : Store) (t : Task) : Decidable (ConsistentCache s t) :=
  inferInstanceAs (Decidable (_ = _))

/-! ### Day-arithmetic lemmas -/

theorem startOfDay_lt_iff (tz a b : Int) :
    startOfDay tz a < startOfDay tz b ↔ dayIndex tz a < dayIndex tz b := by
  unfold startOfDay dayMs
  generalize dayIndex tz a = x
  generalize dayIndex tz b = y
  omega

theorem startOfDay_eq_iff (tz a b : Int) :
    startOfDay tz a = startOfDay tz b ↔ dayIndex tz a = dayIndex tz b := by
  unfold startOfDay dayMs
  generalize dayIndex tz a = x
  generalize dayIndex tz b = y
  omega

theorem differenceInDays_startOfDay (tz a b : Int) :
    differenceInDays (startOfDay tz a) (startOfDay tz b) = dayIndex tz a - dayIndex tz b := by
  unfold differenceInDays startOfDay dayMs
  generalize dayIndex tz a = x
  generalize dayIndex tz b = y
  omega

theorem clampDay_eq_min (d dim : Int) : clampDay d dim = min d dim := by
  unfold clampDay
  split <;> omega

theorem addMonthsDay_eq_spec (k : Int) : addMonthsDay k = specMonthlyDay k := by
  unfold addMonthsDay addMonthsCivil specMonthlyDay
  rw [clampDay_eq_min]

/-- Shared helper: `calculateNextDueDate` agrees with the claim-side
phrasing `claimNextDue` at every host offset. -/
theorem calcNextDue_eq_claim (tz : Int) (task : Task) :
    calculateNextDueDate tz task = claimNextDue tz task := by
  unfold calculateNextDueDate claimNextDue
  cases baselineOf task with
  | none => rfl
  | some b =>
    cases task.frequency with
    | weekly =>
      dsimp only
      unfold addDays startOfDay dayMs
      congr 1
      ring
    | monthly =>
      dsimp only
      congr 1
      unfold addMonths startOfDay
      have h1 : dayIndex tz b * dayMs - tz + tz = dayIndex tz b * dayMs := by ring
      have hd : dayMs ≠ 0 := by unfold dayMs; decide
      rw [h1, Int.mul_ediv_cancel _ hd, Int.mul_emod_left, addMonthsDay_eq_spec]
      ring

/-! ### Claim theorems -/

/-- C1: for every host offset, clock value and task, the status classifier
returns OK when `calculateNextDueDate` is absent; Overdue when the day of
`now` is strictly after the day of the next due date; DueToday when they are
the same day; otherwise Upcoming exactly when the whole-day difference
`dueDay - today` is at most 3 for a weekly task or at most 5 for a monthly
task; and OK in all remaining cases. -/
theorem claim1_status_classifier (tz utcNow : Int) (task : Task) :
    calculateTaskStatus tz utcNow task =
      claimStatus tz (calculateNextDueDate tz task) (getHKTime tz utcNow) task.frequency := by
  unfold calculateTaskStatus claimStatus
  cases calculateNextDueDate tz task with
  | none => rfl
  | some due =>
    simp only [startOfDay_lt_iff, startOfDay_eq_iff, differenceInDays_startOfDay]

/-- C2: `calculateNextDueDate` uses the baseline precedence `lastCompletedAt`,
else `startDate`, else `createdAt`, is absent when none exist, and returns the
day-truncated baseline plus 7 days for a weekly task, or plus one calendar
month with the same day-of-month clamped to the last valid day for a monthly
task. -/
theorem claim2_next_due (tz : Int) (task : Task) :
    calculateNextDueDate tz task = claimNextDue tz task :=
  calcNextDue_eq_claim tz task

/-! ### Ledger lemmas -/

theorem enrichTask_lastCompletedAt (tz utcNow : Int) (logs : List CompletionLog) (t : Task) :
    (enrichTask tz utcNow logs t).lastCompletedAt = t.lastCompletedAt := rfl

theorem enrichTask_id (tz utcNow : Int) (logs : List CompletionLog) (t : Task) :
    (enrichTask tz utcNow logs t).id = t.id := rfl

theorem mark_store_logs (tz utcNow : Int) (s : Store) (task : Task)
    (cb cbn : String) (note : Option String) (photos : List String) (newId : String) :
    (markTaskComplete tz utcNow s task cb cbn note photos newId).1.completionLogs
      = putLog s.completionLogs (newCompletionLog tz utcNow task cb cbn note photos newId) := rfl

theorem mark_task_id (tz utcNow : Int) (s : Store) (task : Task)
    (cb cbn : String) (note : Option String) (photos : List String) (newId : String) :
    (markTaskComplete tz utcNow s task cb cbn note photos newId).2.1.id = task.id := rfl

theorem mark_task_lastCompletedAt (tz utcNow : Int) (s : Store) (task : Task)
    (cb cbn : String) (note : Option String) (photos : List String) (newId : String) :
    (markTaskComplete tz utcNow s task cb cbn note photos newId).2.1.lastCompletedAt
      = some (getHKTime tz utcNow) := rfl

theorem mark_log_id (tz utcNow : Int) (s : Store) (task : Task)
    (cb cbn : String) (note : Option String) (photos : List String) (newId : String) :
    (markTaskComplete tz utcNow s task cb cbn note photos newId).2.2.id = newId := rfl

theorem undo_store_logs (tz utcNow : Int) (s : Store) (task : Task) (logId : String) :
    (undoTaskCompletion tz utcNow s task logId).1.completionLogs
      = s.completionLogs.filter (fun l => l.id != logId) := rfl

theorem undo_task_id (tz utcNow : Int) (s : Store) (task : Task) (logId : String) :
    (undoTaskCompletion tz utcNow s task logId).2.id = task.id := rfl

theorem undo_task_lastCompletedAt (tz utcNow : Int) (s : Store) (task : Task) (logId : String) :
    (undoTaskCompletion tz utcNow s task logId).2.lastCompletedAt
      = lastCompletionOf (logsForTask (s.completionLogs.filter (fun l => l.id != logId)) task.id)
      := rfl

/-- A `put` with a primary id not present in the store is an append. -/
theorem putLog_fresh (logs : List CompletionLog) (x : CompletionLog)
    (h : ∀ l ∈ logs, l.id ≠ x.id) : putLog logs x = logs ++ [x] := by
  unfold putLog
  rw [if_neg]
  simp only [List.any_eq_true, beq_iff_eq, not_exists]
  rintro l ⟨hl, he⟩
  exact h l hl he

/-- Deleting a freshly appended log restores the original list. -/
theorem filter_append_fresh (logs : List CompletionLog) (x : CompletionLog) (xid : String)
    (hxid : x.id = xid) (h : ∀ l ∈ logs, l.id ≠ xid) :
    (logs ++ [x]).filter (fun l => l.id != xid) = logs := by
  rw [List.filter_append]
  have h2 : [x].filter (fun l => l.id != xid) = [] := by simp [hxid]
  rw [h2, List.append_nil]
  apply List.filter_eq_self.mpr
  intro l hl
  simpa using h l hl

theorem maxTime_append_one (l : List Int) (x : Int) :
    maxTime (l ++ [x]) = some (match maxTime l with | none => x | some m => max m x) := by
  induction l with
  | nil => rfl
  | cons t ts ih =>
    rw [List.cons_append]
    unfold maxTime
    rw [ih]
    cases hts : maxTime ts with
    | none =>
      unfold maxTime at hts
      simp only [hts]
    | some m =>
      simp only [hts]
      rw [max_assoc]

theorem maxTime_mem (l : List Int) (m : Int) (h : maxTime l = some m) : m ∈ l := by
  induction l generalizing m with
  | nil => simp [maxTime] at h
  | cons t ts ih =>
    unfold maxTime at h
    cases hts : maxTime ts with
    | none =>
      rw [hts] at h
      simp only [Option.some.injEq] at h
      simp [← h]
    | some m2 =>
      rw [hts] at h
      simp only [Option.some.injEq] at h
      rcases Int.le_total t m2 with hle | hle
      · rw [← h, max_eq_right hle]
        exact List.mem_cons_of_mem t (ih m2 hts)
      · rw [← h, max_eq_left hle]
        exact List.mem_cons_self t ts

/-- The `by-task` index after appending a log of that task. -/
theorem logsForTask_append_own (logs : List CompletionLog) (x : CompletionLog)
    (taskId : String) (hx : x.taskId = taskId) :
    logsForTask (logs ++ [x]) taskId = logsForTask logs taskId ++ [x] := by
  unfold logsForTask
  rw [List.filter_append]
  simp [hx]

/-! ### Claims C3, C6, C7 -/

/-- C3: if the task's `lastCompletedAt` is consistent with its stored
completion logs, then `markTaskComplete` followed immediately by
`undoTaskCompletion` with the returned log id (at any host offset and any
undo-time clock value) restores `lastCompletedAt` to its pre-completion
value.  The generated log id is assumed not to collide with a stored log id,
matching the random `log-...` ids of the source. -/
theorem claim3_round_trip (tz utcNow undoNow : Int) (s : Store) (task : Task)
    (cb cbn : String) (note : Option String) (photos : List String) (newId : String)
    (hcons : task.lastCompletedAt = lastCompletionOf (logsForTask s.completionLogs task.id))
    (hfresh : ∀ l ∈ s.completionLogs, l.id ≠ newId) :
    ((undoTaskCompletion tz undoNow
        (markTaskComplete tz utcNow s task cb cbn note photos newId).1
        (markTaskComplete tz utcNow s task cb cbn note photos newId).2.1
        (markTaskComplete tz utcNow s task cb cbn note photos newId).2.2.id).2).lastCompletedAt
      = task.lastCompletedAt := by
  rw [undo_task_lastCompletedAt, mark_store_logs, mark_task_id, mark_log_id]
  rw [putLog_fresh _ _ hfresh, filter_append_fresh _ _ newId rfl hfresh]
  exact hcons.symm

/-- C6 counterexample data: a store whose only log for task `t` is dated
after the completion clock used below. -/
def logA : CompletionLog :=
  { id := "a"
    taskId := "t"
    completedAt := 10
    completedBy := "u"
    completedByName := some "U"
    note := none
    photos := []
    undoUntil := 300010
    createdAt := 10 }

/-- Task whose cached `lastCompletedAt` matches `logA`. -/
def taskA : Task :=
  { id := "t"
    title := "x"
    description := none
    frequency := TaskFrequency.weekly
    priority := TaskPriority.Medium
    isActive := true
    assignedToAllHelpers := true
    assignees := []
    startDate := none
    lastCompletedAt := some 10
    createdAt := some 0
    updatedAt := 0
    nextDueAt := none
    status := none
    lastThreeCompletions := none }

/-- Store holding `taskA` and `logA`. -/
def storeA : Store := { tasks := [taskA], completionLogs := [logA] }

/-- C6 counterexample: with the host in Hong Kong, a consistent task whose
stored log is dated at 10 ms is completed at clock value 5 ms;
`markTaskComplete` sets `lastCompletedAt` to 5 while the maximum stored
`completedAt` is still 10, so the consistency predicate is not preserved as
claimed for every state and clock. -/
theorem claim6_counterexample :
    ConsistentCache storeA taskA ∧
      ¬ ConsistentCache (markTaskComplete hkOffsetMs 5 storeA taskA "u" "U" none [] "b").1
          (markTaskComplete hkOffsetMs 5 storeA taskA "u" "U" none [] "b").2.1 := by
  decide

/-- C6 amended: `undoTaskCompletion` always re-establishes the consistency
predicate; `markTaskComplete` preserves it provided the completion clock is
not behind any stored `completedAt` of the task (and the generated log id is
fresh). -/
theorem claim6_amended (tz utcNow : Int) (s : Store) (task : Task)
    (cb cbn : String) (note : Option String) (photos : List String) (newId logId : String)
    (hcons : ConsistentCache s task)
    (hfresh : ∀ l ∈ s.completionLogs, l.id ≠ newId)
    (hclock : ∀ l ∈ logsForTask s.completionLogs task.id, l.completedAt ≤ getHKTime tz utcNow) :
    ConsistentCache (markTaskComplete tz utcNow s task cb cbn note photos newId).1
        (markTaskComplete tz utcNow s task cb cbn note photos newId).2.1
      ∧ ConsistentCache (undoTaskCompletion tz utcNow s task logId).1
          (undoTaskCompletion tz utcNow s task logId).2 := by
  constructor
  · unfold ConsistentCache
    rw [mark_task_lastCompletedAt, mark_store_logs, mark_task_id]
    rw [putLog_fresh _ _ hfresh]
    rw [logsForTask_append_own s.completionLogs _ task.id rfl]
    unfold lastCompletionOf
    rw [List.map_append, List.map_singleton]
    rw [maxTime_append_one]
    cases hmax : maxTime ((logsForTask s.completionLogs task.id).map (fun l => l.completedAt)) with
    | none => rfl
    | some m =>
      have hm : m ∈ (logsForTask s.completionLogs task.id).map (fun l => l.completedAt) :=
        maxTime_mem _ m hmax
      rcases List.mem_map.mp hm with ⟨l, hl, he⟩
      have hle : m ≤ getHKTime tz utcNow := he ▸ hclock l hl
      simp only [Option.some.injEq]
      have : (newCompletionLog tz utcNow task cb cbn note photos newId).completedAt
          = getHKTime tz utcNow := rfl
      rw [this, max_eq_right hle]
  · unfold ConsistentCache
    rw [undo_task_lastCompletedAt, undo_store_logs, undo_task_id]

/-- C6 witness: the amended preservation law applied to `storeA` with a
completion clock at 20 ms (not behind the stored log at 10 ms). -/
theorem claim6_witness :
    ConsistentCache (markTaskComplete hkOffsetMs 20 storeA taskA "u" "U" none [] "b").1
        (markTaskComplete hkOffsetMs 20 storeA taskA "u" "U" none [] "b").2.1
      ∧ ConsistentCache (undoTaskCompletion hkOffsetMs 20 storeA taskA "a").1
          (undoTaskCompletion hkOffsetMs 20 storeA taskA "a").2 :=
  claim6_amended hkOffsetMs 20 storeA taskA "u" "U" none [] "b" "a"
    (by decide) (by decide) (by decide)

/-- C3 witness: the round-trip law applied to `storeA` at completion clock 6
and undo clock 7. -/
theorem claim3_witness :
    ((undoTaskCompletion hkOffsetMs 7
        (markTaskComplete hkOffsetMs 6 storeA taskA "u" "U" none [] "b").1
        (markTaskComplete hkOffsetMs 6 storeA taskA "u" "U" none [] "b").2.1
        (markTaskComplete hkOffsetMs 6 storeA taskA "u" "U" none [] "b").2.2.id).2).lastCompletedAt
      = taskA.lastCompletedAt :=
  claim3_round_trip hkOffsetMs 6 7 storeA taskA "u" "U" none [] "b" (by decide) (by decide)

/-- C7: `undoTaskCompletion` never rejects a late undo.  Even when the clock
is at or past the targeted log's `undoUntil`, the operation deletes exactly
the logs with that id and returns a task whose `lastCompletedAt` is
recomputed from the remaining logs; no error of any kind exists at this
layer. -/
theorem claim7_no_stale_guard (tz utcNow : Int) (s : Store) (task : Task) (l : CompletionLog)
    (hmem : l ∈ s.completionLogs) (hstale : l.undoUntil ≤ utcNow) :
    (∀ x : CompletionLog,
        x ∈ (undoTaskCompletion tz utcNow s task l.id).1.completionLogs
          ↔ x ∈ s.completionLogs ∧ x.id ≠ l.id)
      ∧ l ∉ (undoTaskCompletion tz utcNow s task l.id).1.completionLogs
      ∧ (undoTaskCompletion tz utcNow s task l.id).2.lastCompletedAt
          = lastCompletionOf
              (logsForTask (s.completionLogs.filter (fun x => x.id != l.id)) task.id) := by
  refine ⟨?_, ?_, undo_task_lastCompletedAt tz utcNow s task l.id⟩
  · intro x
    rw [undo_store_logs]
    simp [List.mem_filter]
  · rw [undo_store_logs]
    intro hx
    simp [List.mem_filter] at hx

/-- C7 witness: a stale undo of `logA` (window ends at 300010 ms, clock at
400000 ms) still deletes the log and recomputes the cache. -/
theorem claim7_witness :
    logA ∉ (undoTaskCompletion hkOffsetMs 400000 storeA taskA logA.id).1.completionLogs
      ∧ (undoTaskCompletion hkOffsetMs 400000 storeA taskA logA.id).2.lastCompletedAt
          = lastCompletionOf
              (logsForTask (storeA.completionLogs.filter (fun x => x.id != logA.id)) taskA.id) :=
  have h := claim7_no_stale_guard hkOffsetMs 400000 storeA taskA logA (by decide) (by decide)
  ⟨h.2.1, h.2.2⟩

/-! ### Stability of the status sort -/

theorem orderedInsert_filter_eq (x : Task) (l : List Task) (k : Nat)
    (hx : sortStatusKey x = k) :
    (List.orderedInsert statusLE x l).filter (fun t => sortStatusKey t == k)
      = x :: l.filter (fun t => sortStatusKey t == k) := by
  induction l with
  | nil => simp [List.orderedInsert, hx]
  | cons b l ih =>
    by_cases hr : statusLE x b
    · simp only [List.orderedInsert, if_pos hr]
      simp [hx]
    · simp only [List.orderedInsert, if_neg hr]
      have hb : sortStatusKey b ≠ k := by
        unfold statusLE at hr
        omega
      simp only [List.filter_cons, ih]
      simp [hb]

theorem orderedInsert_filter_ne (x : Task) (l : List Task) (k : Nat)
    (hx : sortStatusKey x ≠ k) :
    (List.orderedInsert statusLE x l).filter (fun t => sortStatusKey t == k)
      = l.filter (fun t => sortStatusKey t == k) := by
  induction l with
  | nil => simp [List.orderedInsert, hx]
  | cons b l ih =>
    by_cases hr : statusLE x b
    · simp only [List.orderedInsert, if_pos hr]
      simp [hx]
    · simp only [List.orderedInsert, if_neg hr]
      simp only [List.filter_cons, ih]

/-- Stability of `sortTasksByStatus`: the subsequence of tasks at each fixed
comparator key is exactly the input subsequence in input order. -/
theorem sortTasksByStatus_filter_key (tasks : List Task) (k : Nat) :
    (sortTasksByStatus tasks).filter (fun t => sortStatusKey t == k)
      = tasks.filter (fun t => sortStatusKey t == k) := by
  unfold sortTasksByStatus
  induction tasks with
  | nil => rfl
  | cons x l ih =>
    simp only [List.insertionSort]
    by_cases hx : sortStatusKey x = k
    · rw [orderedInsert_filter_eq x _ k hx, ih]
      simp [List.filter_cons, hx]
    · rw [orderedInsert_filter_ne x _ k hx, ih]
      simp [List.filter_cons, hx]

/-! ### Claim C4 -/

/-- C4 counterexample data: a Low-priority Overdue task. -/
def taskC4Low : Task :=
  { id := "c4-low"
    title := "low"
    description := none
    frequency := TaskFrequency.weekly
    priority := TaskPriority.Low
    isActive := true
    assignedToAllHelpers := true
    assignees := []
    startDate := none
    lastCompletedAt := some 0
    createdAt := some 0
    updatedAt := 0
    nextDueAt := none
    status := some TaskStatus.Overdue
    lastThreeCompletions := none }

/-- C4 counterexample data: a High-priority Overdue task listed second. -/
def taskC4High : Task :=
  { taskC4Low with id := "c4-high", title := "high", priority := TaskPriority.High }

/-- C4 counterexample: `sortTasksByStatus` leaves a Low-priority Overdue task
before a High-priority Overdue task (stable on equal status), so its output is
not ordered by the claimed composite (status, priority) key: the second task
has a strictly smaller composite key than the first. -/
theorem claim4_counterexample :
    sortTasksByStatus [taskC4Low, taskC4High] = [taskC4Low, taskC4High]
      ∧ claimSortKey taskC4High < claimSortKey taskC4Low := by
  decide

/-- C4 amended: `sortTasksByStatus` is a stable sort by status severity rank
alone (Overdue 0, DueToday 1, Upcoming 2, OK 3, with an unset status treated
as OK); priority is not a sort key.  The output is a permutation of the input,
it is sorted by the status key, and tasks with equal status key retain their
relative input order. -/
theorem claim4_amended (tasks : List Task) :
    List.Perm (sortTasksByStatus tasks) tasks
      ∧ List.Sorted statusLE (sortTasksByStatus tasks)
      ∧ ∀ k : Nat,
          (sortTasksByStatus tasks).filter (fun t => sortStatusKey t == k)
            = tasks.filter (fun t => sortStatusKey t == k) :=
  ⟨List.perm_insertionSort statusLE tasks, List.sorted_insertionSort statusLE tasks,
    fun k => sortTasksByStatus_filter_key tasks k⟩

/-- C4 witness: the amended law at the two-task input of the counterexample,
with the stability conjunct instantiated at the Overdue key 0. -/
theorem claim4_witness :
    List.Perm (sortTasksByStatus [taskC4Low, taskC4High]) [taskC4Low, taskC4High]
      ∧ (sortTasksByStatus [taskC4Low, taskC4High]).filter (fun t => sortStatusKey t == 0)
          = [taskC4Low, taskC4High].filter (fun t => sortStatusKey t == 0) :=
  have h := claim4_amended [taskC4Low, taskC4High]
  ⟨h.1, h.2.2 0⟩

/-! ### Claim C5 -/

/-- C5 counterexample data: a weekly task whose baseline 82800000 ms is 23:00
UTC on 1970-01-01, which is already 07:00 on 1970-01-02 in Hong Kong. -/
def taskC5 : Task :=
  { id := "c5"
    title := "x"
    description := none
    frequency := TaskFrequency.weekly
    priority := TaskPriority.Medium
    isActive := true
    assignedToAllHelpers := true
    assignees := []
    startDate := none
    lastCompletedAt := some 82800000
    createdAt := some 0
    updatedAt := 0
    nextDueAt := none
    status := none
    lastThreeCompletions := none }

/-- C5 counterexample: on a UTC host (offset 0), `calculateNextDueDate`
truncates the baseline to the host-local midnight (1970-01-01T00:00Z,
yielding 1970-01-08T00:00Z = 604800000), not to the Hong Kong midnight of its
Hong Kong calendar day (1970-01-02T00:00+08:00, which would yield 662400000),
so the baseline is not truncated in the normalized zone as claimed. -/
theorem claim5_counterexample :
    calculateNextDueDate 0 taskC5 ≠ claimNextDueHK taskC5 := by
  decide

/-- C5 amended: `calculateNextDueDate` truncates the baseline to midnight of
its calendar day in the host machine's local zone, so the baseline's
time-of-day within its host-local day has no effect, and the result coincides
with the claimed Hong Kong truncation when the host offset is UTC+8. -/
theorem claim5_amended (tz : Int) (task : Task) (b b' : Int)
    (hb : task.lastCompletedAt = some b) (hday : dayIndex tz b = dayIndex tz b') :
    calculateNextDueDate tz task
        = calculateNextDueDate tz { task with lastCompletedAt := some b' }
      ∧ calculateNextDueDate hkOffsetMs task = claimNextDueHK task := by
  constructor
  · have hsod : startOfDay tz b = startOfDay tz b' := by
      unfold startOfDay
      rw [hday]
    unfold calculateNextDueDate baselineOf
    simp only [hb, hsod]
  · unfold calculateNextDueDate claimNextDueHK
    have hsod : ∀ t : Int, startOfDay hkOffsetMs t = hkStartOfDay t := fun t => rfl
    cases baselineOf task with
    | none => rfl
    | some base =>
      cases task.frequency with
      | weekly =>
        dsimp only
        rw [hsod]
      | monthly =>
        dsimp only
        rw [hsod]

/-- C5 witness: the amended law at the counterexample task on a UTC host,
moving the baseline within its UTC calendar day (23:00:00 to 23:00:01). -/
theorem claim5_witness :
    calculateNextDueDate 0 taskC5
        = calculateNextDueDate 0 { taskC5 with lastCompletedAt := some 82800001 }
      ∧ calculateNextDueDate hkOffsetMs taskC5 = claimNextDueHK taskC5 :=
  claim5_amended 0 taskC5 82800000 82800001 (by decide) (by decide)

/-! ### Claim C8 -/

/-- C8: an Owner's filtered list is the whole list; a Helper's filtered list
contains exactly the tasks with `assignedToAllHelpers` or with the Helper's id
among `assignees`; in particular a task with neither never appears in that
Helper's filtered list. -/
theorem claim8_assignee_filter (tasks : List Task) (userId : String) (t : Task) :
    filterTasksByAssignee tasks userId true = tasks
      ∧ (t ∈ filterTasksByAssignee tasks userId false
          ↔ t ∈ tasks ∧ (t.assignedToAllHelpers = true ∨ userId ∈ t.assignees))
      ∧ (t.assignedToAllHelpers = false → userId ∉ t.assignees
          → t ∉ filterTasksByAssignee tasks userId false) := by
  have hiff : t ∈ filterTasksByAssignee tasks userId false
      ↔ t ∈ tasks ∧ (t.assignedToAllHelpers = true ∨ userId ∈ t.assignees) := by
    unfold filterTasksByAssignee
    simp [List.mem_filter]
  refine ⟨rfl, hiff, ?_⟩
  intro hall hmem hin
  rcases (hiff.mp hin).2 with h1 | h1
  · rw [hall] at h1
    cases h1
  · exact hmem h1

/-- C8 concrete task: not assigned to all helpers, assignees do not include
helper `h1`. -/
def taskC8 : Task :=
  { id := "c8"
    title := "x"
    description := none
    frequency := TaskFrequency.weekly
    priority := TaskPriority.Medium
    isActive := true
    assignedToAllHelpers := false
    assignees := ["h2"]
    startDate := none
    lastCompletedAt := none
    createdAt := some 0
    updatedAt := 0
    nextDueAt := none
    status := none
    lastThreeCompletions := none }

/-- C8 witness: the Owner sees `taskC8`, while Helper `h1` (not in its
assignees, `assignedToAllHelpers` false) never sees it. -/
theorem claim8_witness :
    filterTasksByAssignee [taskC8] "h1" true = [taskC8]
      ∧ taskC8 ∉ filterTasksByAssignee [taskC8] "h1" false :=
  have h := claim8_assignee_filter [taskC8] "h1" taskC8
  ⟨h.1, h.2.2 rfl (by decide)⟩

/-! ### Claim C9 -/

theorem foldl_delete_tasks (L : List CompletionLog) (st : Store) :
    (L.foldl (fun acc l => dbDeleteCompletionLog acc l.id) st).tasks = st.tasks := by
  induction L generalizing st with
  | nil => rfl
  | cons a L ih =>
    rw [List.foldl_cons, ih]
    rfl

theorem foldl_delete_mem (L : List CompletionLog) (st : Store) (x : CompletionLog) :
    x ∈ (L.foldl (fun acc l => dbDeleteCompletionLog acc l.id) st).completionLogs
      ↔ x ∈ st.completionLogs ∧ ∀ l ∈ L, x.id ≠ l.id := by
  induction L generalizing st with
  | nil => simp
  | cons a L ih =>
    rw [List.foldl_cons, ih]
    unfold dbDeleteCompletionLog
    simp only [List.mem_filter, bne_iff_ne, List.mem_cons]
    constructor
    · rintro ⟨⟨hmem, hne⟩, hall⟩
      refine ⟨hmem, ?_⟩
      rintro l (rfl | hl)
      · exact hne
      · exact hall l hl
    · rintro ⟨hmem, hall⟩
      exact ⟨⟨hmem, hall a (Or.inl rfl)⟩, fun l hl => hall l (Or.inr hl)⟩

/-- C9 amended: after `deleteTask` completes, the store contains neither the
task nor any completion log whose `taskId` equals the deleted id (a complete
cascade, zero orphaned logs); the implementation deletes the task record
first and then each of its logs in turn, rather than logs-first or
atomically. -/
theorem claim9_amended (s : Store) (id : String) :
    (∀ t ∈ (deleteTask s id).tasks, t.id ≠ id)
      ∧ (∀ l ∈ (deleteTask s id).completionLogs, l.taskId ≠ id)
      ∧ (deleteTask s id).tasks = s.tasks.filter (fun t => t.id != id) := by
  refine ⟨?_, ?_, ?_⟩
  · intro t ht
    unfold deleteTask at ht
    rw [foldl_delete_tasks] at ht
    unfold dbDeleteTask at ht
    rcases List.mem_filter.mp ht with ⟨_, hne⟩
    exact bne_iff_ne.mp hne
  · intro l hl hid
    unfold deleteTask at hl
    rcases (foldl_delete_mem _ _ _).mp hl with ⟨hmem, hall⟩
    have hmem2 : l ∈ logsForTask (dbDeleteTask s id).completionLogs id := by
      unfold logsForTask
      refine List.mem_filter.mpr ⟨hmem, ?_⟩
      simp [hid]
    exact hall l hmem2 rfl
  · unfold deleteTask
    rw [foldl_delete_tasks]
    rfl

/-- C9 counterexample data: logs belonging to task `t9`. -/
def logC9 (n : String) : CompletionLog :=
  { id := n
    taskId := "t9"
    completedAt := 10
    completedBy := "u"
    completedByName := none
    note := none
    photos := []
    undoUntil := 300010
    createdAt := 10 }

/-- C9 counterexample data: a task with three completion logs. -/
def taskC9 : Task :=
  { id := "t9"
    title := "x"
    description := none
    frequency := TaskFrequency.weekly
    priority := TaskPriority.Medium
    isActive := true
    assignedToAllHelpers := true
    assignees := []
    startDate := none
    lastCompletedAt := some 10
    createdAt := some 0
    updatedAt := 0
    nextDueAt := none
    status := none
    lastThreeCompletions := none }

/-- C9 counterexample data. -/
def storeC9 : Store :=
  { tasks := [taskC9], completionLogs := [logC9 "l1", logC9 "l2", logC9 "l3"] }

/-- C9 counterexample: the first store operation `deleteTask` performs is the
task-record deletion (`dbDeleteTask` in its definition), and at that
intermediate state the task is already gone while its 3 completion logs are
all still present — so the logs are deleted neither first nor atomically with
the task. -/
theorem claim9_counterexample :
    (dbDeleteTask storeC9 "t9").tasks = []
      ∧ (dbDeleteTask storeC9 "t9").completionLogs.length = 3 := by
  decide

/-- C9 witness: the amended cascade law at the three-log store; afterwards no
log of the task remains. -/
theorem claim9_witness :
    (deleteTask storeC9 "t9").tasks = storeC9.tasks.filter (fun t => t.id != "t9")
      ∧ logC9 "l1" ∉ (deleteTask storeC9 "t9").completionLogs :=
  have h := claim9_amended storeC9 "t9"
  ⟨h.2.2, fun hmem => h.2.1 (logC9 "l1") hmem rfl⟩

/-! ### Claim C10 -/

/-- C10: a task with an unset derived status lands in none of the four
buckets of `groupTasksByStatus` (the buckets partition only enriched tasks),
while the comparator key of `sortTasksByStatus` gives the same task the OK
rank — the two operations disagree on the default for un-enriched tasks. -/
theorem claim10_unset_status (tasks : List Task) (t : Task) (h : t.status = none) :
    (t ∉ (groupTasksByStatus tasks).Overdue
        ∧ t ∉ (groupTasksByStatus tasks).DueToday
        ∧ t ∉ (groupTasksByStatus tasks).Upcoming
        ∧ t ∉ (groupTasksByStatus tasks).OK)
      ∧ sortStatusKey t = statusOrder TaskStatus.OK := by
  constructor
  · refine ⟨?_, ?_, ?_, ?_⟩ <;>
      · intro hmem
        rcases List.mem_filter.mp hmem with ⟨_, hbeq⟩
        rw [h] at hbeq
        cases hbeq
  · unfold sortStatusKey statusOrDefault
    rw [h]
    rfl

/-- C10 concrete task with an unset status. -/
def taskC10 : Task :=
  { id := "c10"
    title := "x"
    description := none
    frequency := TaskFrequency.weekly
    priority := TaskPriority.Medium
    isActive := true
    assignedToAllHelpers := true
    assignees := []
    startDate := none
    lastCompletedAt := none
    createdAt := some 0
    updatedAt := 0
    nextDueAt := none
    status := none
    lastThreeCompletions := none }

/-- C10 witness: the law at a one-task list whose status is unset. -/
theorem claim10_witness :
    (taskC10 ∉ (groupTasksByStatus [taskC10]).Overdue
        ∧ taskC10 ∉ (groupTasksByStatus [taskC10]).DueToday
        ∧ taskC10 ∉ (groupTasksByStatus [taskC10]).Upcoming
        ∧ taskC10 ∉ (groupTasksByStatus [taskC10]).OK)
      ∧ sortStatusKey taskC10 = statusOrder TaskStatus.OK :=
  claim10_unset_status [taskC10] taskC10 rfl

end HomeHelper
